import Mathlib

/-!
Verification of the sound-change rule engine of the `languagebuilder`
repository (`languagebuilder/phonology/phonology.py`): the scan-and-commit
algorithm of `Phonology.apply_rules`, the feature algebra of
`Phonology.change_symbol`, and rule definition through `Phonology.add_rule`.

The engine's collaborators (`Phonetics`, `Rules`, `RuleTracker`) live in
files that are not part of the sources at hand; each of their operations is
embedded from the specification's contracts (sections 4.1 - 4.3) and is
marked `Modelled from the spec:` in its doc comment.  The functions of
`phonology.py` itself are embedded statement by statement from the Python
source.  Python exceptions are embedded as `Option`: a function returns
`none` exactly when the Python code would raise.
-/

abbrev Feature := String
abbrev IPA := String

/-- Modelled from the spec: the Feature Registry (`Phonetics`, section 4.1),
whose source file is absent.  It associates phonetic symbols with feature
sets, kept in registration order so that symbol resolution is stable. -/
structure Phonetics where
  entries : List (IPA × List Feature)
deriving Repr, DecidableEq

/-- Modelled from the spec: `features_of(s) -> FeatureSet | fails with
UnknownSymbol`.  `none` embeds the failure for unregistered symbols. -/
def Phonetics.get_features (p : Phonetics) (s : IPA) : Option (List Feature) :=
  (p.entries.find? (fun e => e.1 == s)).map (·.2)

/-- Modelled from the spec: `has_feature(f) -> bool`; a feature is
registered when some registered symbol carries it. -/
def Phonetics.has_feature (p : Phonetics) (f : Feature) : Bool :=
  p.entries.any (fun e => e.2.contains f)

/-- Modelled from the spec: `parse(features) -> FeatureSet | fails with
InvalidFeatures`; fails when any token is not a registered feature. -/
def Phonetics.parse_features (p : Phonetics) (features : List Feature) : Option (List Feature) :=
  if features.all p.has_feature then some features else none

/-- Modelled from the spec: `symbols_matching(features, restrict_to=None)`;
every registered symbol whose feature set is a superset of the query, in
stable registration order. -/
def Phonetics.get_ipa (p : Phonetics) (features : List Feature) : List IPA :=
  (p.entries.filter (fun e => features.all (fun f => e.2.contains f))).map (·.1)

/-- A sound change rule: source and target feature sets plus the
environment, a list of slots where each slot is a list of feature strings,
the focus slot being the literal `["_"]` (the normalized structure the
repository's structure parser produces, e.g. `"V_V"` becomes
`[["vowel"], ["_"], ["vowel"]]`). -/
structure Rule where
  source : List Feature
  target : List Feature
  environment : List (List Feature)
deriving Repr, DecidableEq

/-- Modelled from the spec: the Rule Store (section 4.2), whose source file
is absent.  Rules are kept in insertion order under integer ids. -/
structure Rules where
  store : List (Nat × Rule)
  nextId : Nat
deriving Repr, DecidableEq

/-- Modelled from the spec: `get(id)`; `none` when the id is unknown. -/
def Rules.get (rs : Rules) (rid : Nat) : Option Rule :=
  (rs.store.find? (fun e => e.1 == rid)).map (·.2)

/-- A slot is the focus marker when it is the literal focus token. -/
def isFocus (slot : List Feature) : Bool :=
  slot == ["_"]

/-- Modelled from the spec: `add(source, target, environment)`; exactly one
focus token is required, otherwise the call fails (`InvalidRule`) and
nothing is stored; on success a fresh id is minted. -/
def Rules.add (rs : Rules) (source target : List Feature) (env : List (List Feature)) :
    Option (Nat × Rules) :=
  if (env.filter isFocus).length == 1 then
    some (rs.nextId, ⟨rs.store ++ [(rs.nextId, ⟨source, target, env⟩)], rs.nextId + 1⟩)
  else
    none

/-- The source's `Phonology.add_rule`: vet source and target through the
registry's parse, fail (returning no id, second component the unchanged
store) when either does not parse or is empty, otherwise delegate to the
rule store. -/
def add_rule (p : Phonetics) (rs : Rules) (source target : List Feature)
    (env : List (List Feature)) : Option Nat × Rules :=
  match p.parse_features source, p.parse_features target with
  | some vetted_source, some vetted_target =>
    if vetted_source.isEmpty || vetted_target.isEmpty then (none, rs)
    else
      match rs.add vetted_source vetted_target env with
      | some (rule_id, rs') => (some rule_id, rs')
      | none => (none, rs)
  | _, _ => (none, rs)

/-- The feature-algebra core of `Phonology.change_symbol`: start from the
target features and keep every current feature except those in the source
but not in the target (the loop over `symbol_features` in the source). -/
def changedFeatures (source target symbol_features : List Feature) : List Feature :=
  target ++ symbol_features.filter (fun f => !(source.contains f && !(target.contains f)))

/-- The source's `Phonology.change_symbol`: compute the post-change
feature set, then take the first registered symbol matching it.
`new_symbols[0]` on an empty candidate list raises in Python; that failure
is the `none` of `List.head?`. -/
def change_symbol (p : Phonetics) (source target : List Feature) (ipa_symbol : IPA) :
    Option IPA :=
  match p.get_features ipa_symbol with
  | none => none
  | some symbol_features => (p.get_ipa (changedFeatures source target symbol_features)).head?

/-- One in-flight hypothesis that a rule's environment matches starting at
some input position, as kept by the rule tracker. -/
structure Track where
  rule : Nat
  count : Nat
  length : Nat
  source : Option IPA
  index : Option Nat
deriving Repr, DecidableEq

/-- Modelled from the spec: the Match Tracker (section 4.3), whose source
file is absent.  Live tracks in creation order under integer ids. -/
structure RuleTracker where
  tracks : List (Nat × Track)
  nextId : Nat
deriving Repr, DecidableEq

/-- Look up one live track by id. -/
def RuleTracker.getTrack (rt : RuleTracker) (tid : Nat) : Option Track :=
  (rt.tracks.find? (fun e => e.1 == tid)).map (·.2)

/-- Modelled from the spec: `is_context_match` - the sample feature set
must be a superset of the slot's features. -/
def RuleTracker.is_environment_slot_match (sample slot : List Feature) : Bool :=
  slot.all (fun f => sample.contains f)

/-- Modelled from the spec: `is_focus_match` at the focus slot - the slot
must be the focus marker and the sample a superset of the rule source. -/
def RuleTracker.is_source_slot_match (sample slot source : List Feature) : Bool :=
  isFocus slot && source.all (fun f => sample.contains f)

/-- Modelled from the spec: the commit-phase re-validation check - the
rule's source features must all be present in the sample. -/
def RuleTracker.is_features_submatch (source features : List Feature) : Bool :=
  source.all (fun f => features.contains f)

/-- Modelled from the spec: `try_start` - screen the zeroth environment
slot; when it is the focus marker (zero left context) or the sample
matches it as a context predicate, create a track at count 0, re-evaluated
against the same sound in the same pass; otherwise a no-op. -/
def RuleTracker.track (rt : RuleTracker) (rid : Nat) (env : List (List Feature))
    (sample : List Feature) : RuleTracker :=
  match env.head? with
  | none => rt
  | some slot0 =>
    if isFocus slot0 || RuleTracker.is_environment_slot_match sample slot0 then
      ⟨rt.tracks ++ [(rt.nextId, ⟨rid, 0, env.length, none, none⟩)], rt.nextId + 1⟩
    else rt

/-- Update one live track in place. -/
def RuleTracker.update (rt : RuleTracker) (tid : Nat) (f : Track → Track) : RuleTracker :=
  ⟨rt.tracks.map (fun e => if e.1 == tid then (e.1, f e.2) else e), rt.nextId⟩

/-- Modelled from the spec: `advance` at the focus slot - record the
matched source symbol and its index and increment the slot count. -/
def RuleTracker.set_source_match (rt : RuleTracker) (tid : Nat) (source : IPA)
    (index : Nat) : RuleTracker :=
  rt.update tid (fun t => { t with source := some source, index := some index, count := t.count + 1 })

/-- Modelled from the spec: `advance` at a context slot - increment the
slot count only. -/
def RuleTracker.count_features_match (rt : RuleTracker) (tid : Nat) : RuleTracker :=
  rt.update tid (fun t => { t with count := t.count + 1 })

/-- The scan-phase state of `apply_rules`: the live tracker plus the
completed matches collected so far, in discovery order. -/
structure ScanState where
  tracker : RuleTracker
  successful : List Track
deriving Repr, DecidableEq

/-- Refetch the track after advancing and promote it to the completed list
when its count has reached the environment length (the
`did_keep_tracking and track.count >= track.length` check of the source). -/
def completeCheck (rt : RuleTracker) (tid : Nat) (toPop : List Nat) (succ : List Track) :
    Option (RuleTracker × List Nat × List Track) :=
  match rt.getTrack tid with
  | none => none
  | some tr =>
    if tr.count ≥ tr.length then some (rt, toPop ++ [tid], succ ++ [tr])
    else some (rt, toPop, succ)

/-- One iteration of the tracks loop of `apply_rules` for one live track:
evaluate the current environment slot against the sound under inspection,
advancing, recording the source match, or marking the track for removal. -/
def trackStep (p : Phonetics) (rules : Rules) (i : Nat) (sym : IPA)
    (sample : List Feature) (tid : Nat) (rt : RuleTracker) (toPop : List Nat)
    (succ : List Track) : Option (RuleTracker × List Nat × List Track) :=
  match rt.getTrack tid with
  | none => none
  | some tr =>
    match rules.get tr.rule with
    | none => some (rt, toPop, succ)
    | some rule =>
      match rule.environment[tr.count]? with
      | none => none
      | some slot =>
        if RuleTracker.is_source_slot_match sample slot rule.source then
          completeCheck (rt.set_source_match tid sym i) tid toPop succ
        else if RuleTracker.is_environment_slot_match sample slot then
          completeCheck (rt.count_features_match tid) tid toPop succ
        else
          some (rt, toPop ++ [tid], succ)

/-- The tracks loop of `apply_rules`: iterate over the snapshot of live
track ids taken after the rules loop, threading the tracker, the removal
list and the completed matches. -/
def tracksLoop (p : Phonetics) (rules : Rules) (i : Nat) (sym : IPA)
    (sample : List Feature) :
    List Nat → RuleTracker × List Nat × List Track → Option (RuleTracker × List Nat × List Track)
  | [], acc => some acc
  | tid :: rest, (rt, toPop, succ) =>
    match trackStep p rules i sym sample tid rt toPop succ with
    | none => none
    | some acc' => tracksLoop p rules i sym sample rest acc'

/-- One position of the scan phase of `apply_rules`: skip symbols without
registry features, otherwise attempt to start a track for every rule, run
the tracks loop, and drop every failed or completed track. -/
def scanPos (p : Phonetics) (rules : Rules) (i : Nat) (sym : IPA) (st : ScanState) :
    Option ScanState :=
  match p.get_features sym with
  | none => some st
  | some sample =>
    let rt1 := rules.store.foldl (fun rt r => rt.track r.1 r.2.environment sample) st.tracker
    let ids := rt1.tracks.map (·.1)
    match tracksLoop p rules i sym sample ids (rt1, [], st.successful) with
    | none => none
    | some (rt2, toPop, succ) =>
      some ⟨⟨rt2.tracks.filter (fun e => !(toPop.contains e.1)), rt2.nextId⟩, succ⟩

/-- The scan phase over the indexed input positions. -/
def scanList (p : Phonetics) (rules : Rules) :
    List (Nat × IPA) → ScanState → Option ScanState
  | [], st => some st
  | (i, sym) :: rest, st =>
    match scanPos p rules i sym st with
    | none => none
    | some st' => scanList p rules rest st'

/-- Phase 1 of `apply_rules`: the left-to-right scan over the input,
returning the completed matches in discovery order. -/
def scanWord (p : Phonetics) (rules : Rules) (ipa_string : List IPA) :
    Option (List Track) :=
  (scanList p rules ipa_string.enum ⟨⟨[], 0⟩, []⟩).map (·.successful)

/-- The commit-phase state: the caller's input sequence alongside the
mutable output sequence `new_ipa_sequence` that starts as its copy; the
source only ever assigns into the output. -/
structure CommitState where
  input : List IPA
  output : List IPA
deriving Repr, DecidableEq

/-- One iteration of the commit loop of `apply_rules`: re-read the symbol
currently at the match's index in the output, re-validate it against the
rule source, and write the changed symbol back; `none` embeds the Python
failures (missing index, missing rule, unresolvable change). -/
def commitStep (p : Phonetics) (rules : Rules) (st : CommitState) (t : Track) :
    Option CommitState :=
  match t.index with
  | none => none
  | some index_to_change =>
    match st.output[index_to_change]? with
    | none => none
    | some ipa_to_change =>
      match rules.get t.rule with
      | none => none
      | some applied_rule =>
        match p.get_features ipa_to_change with
        | none => none
        | some features_to_change =>
          if !(RuleTracker.is_features_submatch applied_rule.source features_to_change) then
            some st
          else
            match change_symbol p applied_rule.source applied_rule.target ipa_to_change with
            | none => none
            | some changed_ipa =>
              some { st with output := st.output.set index_to_change changed_ipa }

/-- Phase 2 of `apply_rules`: apply every completed match in discovery
order over the mutable output copy. -/
def commitTracks (p : Phonetics) (rules : Rules) :
    List Track → CommitState → Option CommitState
  | [], st => some st
  | t :: ts, st =>
    match commitStep p rules st t with
    | none => none
    | some st' => commitTracks p rules ts st'

/-- The source's `Phonology.apply_rules`: scan, then commit over a fresh
copy of the input; `none` embeds an uncaught Python exception. -/
def apply_rules (p : Phonetics) (rules : Rules) (ipa_string : List IPA) :
    Option (List IPA) :=
  match scanWord p rules ipa_string with
  | none => none
  | some successful_tracks =>
    match commitTracks p rules successful_tracks ⟨ipa_string, ipa_string⟩ with
    | none => none
    | some st => some st.output

/-! ## Concrete registries and rule sets from the repository's tests -/

/-- The lenition registry of the test fixture: the voiceless velar stop,
both velar fricatives, and a vowel. -/
def phonLenition : Phonetics :=
  ⟨[("k", ["consonant", "voiceless", "velar", "stop"]),
    ("x", ["consonant", "voiceless", "velar", "fricative"]),
    ("ɣ", ["consonant", "voiced", "velar", "fricative"]),
    ("a", ["vowel"])]⟩

/-- The two lenition rules of `test_build_word_lenition`, added in order:
stop to fricative, then voiceless to voiced, both between vowels. -/
def lenitionRules : Rules :=
  (add_rule phonLenition
    (add_rule phonLenition ⟨[], 0⟩ ["stop"] ["fricative"] [["vowel"], ["_"], ["vowel"]]).2
    ["voiceless"] ["voiced"] [["vowel"], ["_"], ["vowel"]]).2

/-- A registry in which the feature combination produced by a velar to
palatal shift of `k` corresponds to no registered symbol (the situation of
`test_build_word_applicable_rule_nonexisting_sound`). -/
def phonPalatal : Phonetics :=
  ⟨[("k", ["consonant", "voiceless", "velar", "stop"]),
    ("a", ["vowel"]),
    ("ɲ", ["consonant", "voiced", "palatal", "nasal"])]⟩

/-- One rule turning a post-vocalic velar palatal; its result features
match no symbol of `phonPalatal`. -/
def palatalRules : Rules :=
  (add_rule phonPalatal ⟨[], 0⟩ ["velar"] ["palatal"] [["vowel"], ["_"]]).2

/-! ## Helper lemmas -/

/-- With an empty rule store one scan position leaves the scan state with
an empty tracker untouched. -/
theorem scanPos_no_rules (p : Phonetics) (i : Nat) (sym : IPA) (n : Nat)
    (succ : List Track) :
    scanPos p ⟨[], 0⟩ i sym ⟨⟨[], n⟩, succ⟩ = some ⟨⟨[], n⟩, succ⟩ := by
  unfold scanPos
  cases hf : p.get_features sym with
  | none => rfl
  | some sample => rfl

/-- With an empty rule store the whole scan leaves the scan state with an
empty tracker untouched. -/
theorem scanList_no_rules (p : Phonetics) (l : List (Nat × IPA)) (n : Nat)
    (succ : List Track) :
    scanList p ⟨[], 0⟩ l ⟨⟨[], n⟩, succ⟩ = some ⟨⟨[], n⟩, succ⟩ := by
  induction l with
  | nil => rfl
  | cons head tail ih =>
    obtain ⟨i, sym⟩ := head
    unfold scanList
    rw [scanPos_no_rules]
    exact ih

/-- One commit iteration keeps the input component and touches no output
position other than the match's own index. -/
theorem commitStep_effect (p : Phonetics) (rules : Rules) (st st' : CommitState)
    (t : Track) (h : commitStep p rules st t = some st') :
    st'.input = st.input ∧ ∀ i, t.index ≠ some i → st'.output[i]? = st.output[i]? := by
  unfold commitStep at h
  split at h
  · cases h
  next j hidx =>
    split at h
    · cases h
    next ipa hout =>
      split at h
      · cases h
      next rule hrule =>
        split at h
        · cases h
        next fs hfs =>
          split at h
          · cases h
            exact ⟨rfl, fun i _ => rfl⟩
          · split at h
            · cases h
            next changed hch =>
              cases h
              refine ⟨rfl, fun i hi => ?_⟩
              have hji : j ≠ i := fun hj => hi (hj ▸ hidx)
              simp [List.getElem?_set_ne hji]

/-- The commit phase keeps the input component and touches no output
position that is not the index of one of the committed matches. -/
theorem commitTracks_effect (p : Phonetics) (rules : Rules) :
    ∀ (ts : List Track) (st st' : CommitState),
      commitTracks p rules ts st = some st' →
      st'.input = st.input ∧
        ∀ i, (∀ t ∈ ts, t.index ≠ some i) → st'.output[i]? = st.output[i]? := by
  intro ts
  induction ts with
  | nil =>
    intro st st' h
    cases h
    exact ⟨rfl, fun i _ => rfl⟩
  | cons t ts ih =>
    intro st st' h
    unfold commitTracks at h
    cases hstep : commitStep p rules st t with
    | none => rw [hstep] at h; cases h
    | some st1 =>
      rw [hstep] at h
      obtain ⟨h1, h2⟩ := ih st1 st' h
      obtain ⟨he1, he2⟩ := commitStep_effect p rules st st1 t hstep
      refine ⟨h1.trans he1, fun i hi => ?_⟩
      exact (h2 i fun t' ht' => hi t' (List.mem_cons_of_mem _ ht')).trans
        (he2 i (hi t (List.mem_cons_self _ _)))

/-! ## Claims -/

/-- C1: with k (voiceless velar stop), x (voiceless velar fricative),
ɣ (voiced velar fricative) and the vowel a registered, and both the rule
stop to fricative and the rule voiceless to voiced defined between vowels,
`apply_rules` over k a k a returns k a ɣ a: the two completed matches at
index 2 compose sequentially through the mutable output, producing a
voiced fricative even though neither rule alone produces it. -/
theorem claim_C1_lenition_composition :
    apply_rules phonLenition lenitionRules ["k", "a", "k", "a"]
      = some ["k", "a", "ɣ", "a"] := by
  rfl

/-- C2: refuted on the code — when the registry's symbol query for the
computed result features is empty, the commit phase does not leave the
position unchanged: `change_symbol` takes `new_symbols[0]` without an
emptiness guard, so the Python call raises IndexError (embedded as `none`)
instead of the documented silent no-op.  Here the velar to palatal rule
completes on `k` and the result features match no registered symbol. -/
theorem claim_C2_unresolvable_symbol_crash :
    phonPalatal.get_ipa
        (changedFeatures ["velar"] ["palatal"] ["consonant", "voiceless", "velar", "stop"])
        = []
      ∧ apply_rules phonPalatal palatalRules ["a", "k"] = none :=
  ⟨rfl, rfl⟩

/-- C3: the post-change feature set computed by `change_symbol` before
symbol resolution holds exactly the target features together with every
current feature except those that are in the source but not in the
target. -/
theorem claim_C3_feature_algebra (S T F : List Feature) (f : Feature) :
    f ∈ changedFeatures S T F ↔ f ∈ T ∨ (f ∈ F ∧ ¬(f ∈ S ∧ f ∉ T)) := by
  simp [changedFeatures, List.mem_filter, not_and, not_not]
  tauto

/-- C4: refuted on the code — `apply_rules` does not always return a
sequence of the input's length: on this input it returns nothing at all,
because the completed velar to palatal match resolves to no registered
symbol and `change_symbol` raises instead of skipping. -/
theorem claim_C4_length_invariant_crash :
    apply_rules phonPalatal palatalRules ["a", "k", "a"] = none := by
  rfl

/-- C5: with zero rules defined, `apply_rules` is the identity transform
on every input sequence. -/
theorem claim_C5_zero_rules_identity (p : Phonetics) (s : List IPA) :
    apply_rules p ⟨[], 0⟩ s = some s := by
  unfold apply_rules scanWord
  rw [scanList_no_rules p s.enum 0 []]
  rfl

/-- C6: refuted on the code — an input containing the unknown symbol z is
skipped at scan time as claimed, yet `apply_rules` can still fail on such
an input: the completed match at the known symbol k resolves to no
registered symbol, and the unguarded `new_symbols[0]` raises. -/
theorem claim_C6_unknown_symbol_crash :
    phonPalatal.get_features "z" = none
      ∧ apply_rules phonPalatal palatalRules ["z", "a", "k"] = none :=
  ⟨rfl, rfl⟩

/-- C7: `add_rule` fails — returning no rule id and leaving the store
unchanged — whenever the source or the target does not parse to registered
features, or the environment does not contain exactly one focus marker. -/
theorem claim_C7_invalid_rule_rejected (p : Phonetics) (rs : Rules)
    (source target : List Feature) (env : List (List Feature))
    (h : p.parse_features source = none ∨ p.parse_features target = none
      ∨ (env.filter isFocus).length ≠ 1) :
    add_rule p rs source target env = (none, rs) := by
  unfold add_rule
  cases hs : p.parse_features source with
  | none =>
    cases ht : p.parse_features target with
    | none => rfl
    | some vt => rfl
  | some vs =>
    cases ht : p.parse_features target with
    | none => rfl
    | some vt =>
      rcases h with h | h | h
      · rw [hs] at h; cases h
      · rw [ht] at h; cases h
      · have hadd : Rules.add rs vs vt env = none := by
          unfold Rules.add
          rw [if_neg]
          simpa using h
        by_cases he : (vs.isEmpty || vt.isEmpty) = true
        · simp [he]
        · simp [he, hadd]

/-- Witness for C7 at a concrete bad call: `mystery` is not a registered
feature, so the rule is rejected and the store stays empty. -/
theorem claim_C7_witness :
    (phonPalatal.parse_features ["mystery"] = none
        ∨ phonPalatal.parse_features ["voiced"] = none
        ∨ (([["_"]] : List (List Feature)).filter isFocus).length ≠ 1)
      ∧ add_rule phonPalatal ⟨[], 0⟩ ["mystery"] ["voiced"] [["_"]]
          = (none, (⟨[], 0⟩ : Rules)) :=
  ⟨Or.inl rfl,
    claim_C7_invalid_rule_rejected phonPalatal ⟨[], 0⟩ ["mystery"] ["voiced"] [["_"]]
      (Or.inl rfl)⟩

/-- C8: a completed match is re-validated in the commit phase against the
symbol currently in the mutable output at its index; when that symbol's
features are no longer a superset of the rule source, the match is skipped
without error and the commit state is returned unchanged. -/
theorem claim_C8_commit_revalidation_skip (p : Phonetics) (rules : Rules) (t : Track)
    (st : CommitState) (idx : Nat) (ipa : IPA) (rule : Rule) (fs : List Feature)
    (hidx : t.index = some idx)
    (hout : st.output[idx]? = some ipa)
    (hrule : rules.get t.rule = some rule)
    (hfs : p.get_features ipa = some fs)
    (hfail : RuleTracker.is_features_submatch rule.source fs = false) :
    commitStep p rules st t = some st := by
  unfold commitStep
  simp only [hidx, hout, hrule, hfs, hfail, Bool.not_false, if_true]

/-- Witness for C8: the voicing rule completed at index 2, but the output
there has already become the vowel a (while the original input still holds
the voiceless k), so the match is skipped and nothing changes. -/
theorem claim_C8_witness :
    ((⟨1, 3, 3, some "k", some 2⟩ : Track).index = some 2
        ∧ (⟨["k", "a", "k", "a"], ["k", "a", "a", "a"]⟩ : CommitState).output[2]?
            = some "a"
        ∧ lenitionRules.get 1
            = some ⟨["voiceless"], ["voiced"], [["vowel"], ["_"], ["vowel"]]⟩
        ∧ phonLenition.get_features "a" = some ["vowel"]
        ∧ RuleTracker.is_features_submatch ["voiceless"] ["vowel"] = false)
      ∧ commitStep phonLenition lenitionRules
          ⟨["k", "a", "k", "a"], ["k", "a", "a", "a"]⟩ ⟨1, 3, 3, some "k", some 2⟩
          = some ⟨["k", "a", "k", "a"], ["k", "a", "a", "a"]⟩ :=
  ⟨⟨rfl, rfl, rfl, rfl, rfl⟩,
    claim_C8_commit_revalidation_skip phonLenition lenitionRules _ _ 2 "a" _ ["vowel"]
      rfl rfl rfl rfl rfl⟩

/-- C9: every output position whose index is not the index of some
completed match holds exactly the input's symbol at that position. -/
theorem claim_C9_frame_untouched_positions (p : Phonetics) (rules : Rules)
    (s out : List IPA) (ts : List Track) (i : Nat)
    (hscan : scanWord p rules s = some ts)
    (happ : apply_rules p rules s = some out)
    (hni : ∀ t ∈ ts, t.index ≠ some i) :
    out[i]? = s[i]? := by
  have h0 : apply_rules p rules s
      = (match commitTracks p rules ts ⟨s, s⟩ with
        | none => none
        | some st => some st.output) := by
    unfold apply_rules
    rw [hscan]
  rw [h0] at happ
  cases hc : commitTracks p rules ts ⟨s, s⟩ with
  | none => rw [hc] at happ; cases happ
  | some st =>
    rw [hc] at happ
    cases happ
    exact (commitTracks_effect p rules ts ⟨s, s⟩ st hc).2 i hni

/-- Witness for C9 on the lenition run: both completed matches point at
index 2, so position 0 keeps the input's k. -/
theorem claim_C9_witness :
    (scanWord phonLenition lenitionRules ["k", "a", "k", "a"]
        = some [⟨0, 3, 3, some "k", some 2⟩, ⟨1, 3, 3, some "k", some 2⟩]
      ∧ apply_rules phonLenition lenitionRules ["k", "a", "k", "a"]
          = some ["k", "a", "ɣ", "a"]
      ∧ ∀ t ∈ ([⟨0, 3, 3, some "k", some 2⟩, ⟨1, 3, 3, some "k", some 2⟩] : List Track),
          t.index ≠ some 0)
      ∧ (["k", "a", "ɣ", "a"] : List IPA)[0]? = (["k", "a", "k", "a"] : List IPA)[0]? :=
  ⟨⟨rfl, rfl, by decide⟩,
    claim_C9_frame_untouched_positions phonLenition lenitionRules
      ["k", "a", "k", "a"] ["k", "a", "ɣ", "a"]
      [⟨0, 3, 3, some "k", some 2⟩, ⟨1, 3, 3, some "k", some 2⟩] 0 rfl rfl (by decide)⟩

/-- C10: the commit phase never writes into the caller's input sequence:
whatever it returns carries the input component unchanged, all
substitutions having gone to the separate output copy. -/
theorem claim_C10_input_not_mutated (p : Phonetics) (rules : Rules) (ts : List Track)
    (st st' : CommitState) (h : commitTracks p rules ts st = some st') :
    st'.input = st.input :=
  (commitTracks_effect p rules ts st st' h).1

/-- Witness for C10: committing the fricativization match rewrites the
output copy to k a x a while the input component stays k a k a. -/
theorem claim_C10_witness :
    commitTracks phonLenition lenitionRules [⟨0, 3, 3, some "k", some 2⟩]
        ⟨["k", "a", "k", "a"], ["k", "a", "k", "a"]⟩
        = some ⟨["k", "a", "k", "a"], ["k", "a", "x", "a"]⟩
      ∧ (⟨["k", "a", "k", "a"], ["k", "a", "x", "a"]⟩ : CommitState).input
          = (⟨["k", "a", "k", "a"], ["k", "a", "k", "a"]⟩ : CommitState).input :=
  ⟨rfl,
    claim_C10_input_not_mutated phonLenition lenitionRules [⟨0, 3, 3, some "k", some 2⟩]
      ⟨["k", "a", "k", "a"], ["k", "a", "k", "a"]⟩
      ⟨["k", "a", "k", "a"], ["k", "a", "x", "a"]⟩ rfl⟩
